import Mathlib

/-!
# Verification of the firewall rule-application engine

Shallow embedding of the core of the `firewall` repository
(`src/iptables.rs`, with the executor interface of `src/executor.rs`):
the primitive-action model, the argument-vector builder, the
exit-status interpreter, and the two-pass writer/orchestrator
(`IptablesWriter::execute`), together with theorems about the
properties stated in the specification.
-/

namespace Firewall

/-! ## Executor interface (`src/executor.rs`)

`ExecutorStatus` mirrors the Rust enum; the `ExecFailure` payload
(`std::io::Error`) is modelled as a message string, which the
classification never inspects.  Exit codes are `i32` in Rust and are
modelled as `Int`. -/

inductive ExecutorStatus where
  | Success : ExecutorStatus
  | ExitCode (code : Int) : ExecutorStatus
  | Signal (sig : Int) : ExecutorStatus
  | ExecFailure (msg : String) : ExecutorStatus
deriving DecidableEq, Repr

/-- `ExecutorResult` keeps the fields the engine inspects: the status
and the combined stdout+stderr text.  (The `cmd` field of the Rust
struct only feeds error messages; the embedding carries the command
alongside, in the execution trace.) -/
structure ExecutorResult where
  status : ExecutorStatus
  combined_output : String
deriving DecidableEq, Repr

/-! ## Substring containment

Rust's `str::contains(&str)` with a string pattern: the pattern occurs
as a contiguous substring.  Modelled on the underlying character
lists. -/

/-- `pat` occurs as a contiguous sublist of `hay`. -/
def listContainsSub (pat : List Char) : List Char → Bool
  | [] => pat.isEmpty
  | c :: t => pat.isPrefixOf (c :: t) || listContainsSub pat t

/-- `str::contains`: `pat` occurs as a substring of `s`. -/
def strContainsSub (s pat : String) : Bool :=
  listContainsSub pat.data s.data

/-! ## Primitive actions (`src/iptables.rs`) -/

/-- The creating actions.  `Insert` holds a 1-based index (`u32` in the
source, modelled as `Nat`; the index is only ever formatted into an
argument string). -/
inductive Action where
  | Append : Action
  | Insert (n : Nat) : Action
  | NewChain : Action
deriving DecidableEq, Repr

/-- The non-creating (deleting) actions. -/
inductive DeletionAction where
  | Delete : DeletionAction
  | DeleteChain : DeletionAction
  | Flush : DeletionAction
deriving DecidableEq, Repr

/-- `AnyAction`: `Check`, a creating action, or a deleting action. -/
inductive AnyAction where
  | Check : AnyAction
  | Creation (a : Action) : AnyAction
  | Deletion (d : DeletionAction) : AnyAction
deriving DecidableEq, Repr

/-- `Action::push_args`: the argument-vector fragment for a creating
action (the source pushes onto `out`; the embedding returns the pushed
fragment, concatenated by the callers in push order). -/
def Action.push_args (a : Action) (chain_name : String) : List String :=
  match a with
  | Action.Append => ["-A", chain_name]
  | Action.Insert n => ["-I", chain_name, toString n]
  | Action.NewChain => ["-N", chain_name]

/-- `Action::deletion_sequence`: the sequence of actions that are
*removing* the original action. -/
def Action.deletion_sequence (a : Action) : List DeletionAction :=
  match a with
  | Action.Append => [DeletionAction.Delete]
  | Action.Insert _ => [DeletionAction.Delete]
  | Action.NewChain => [DeletionAction.Flush, DeletionAction.DeleteChain]

/-- `DeletionAction::push_args`. -/
def DeletionAction.push_args (d : DeletionAction) (chain_name : String) : List String :=
  match d with
  | DeletionAction.Delete => ["-D", chain_name]
  | DeletionAction.DeleteChain => ["-X", chain_name]
  | DeletionAction.Flush => ["-F", chain_name]

/-- `AnyAction::push_args`. -/
def AnyAction.push_args (a : AnyAction) (chain_name : String) : List String :=
  match a with
  | AnyAction.Check => ["-C", chain_name]
  | AnyAction.Creation a => a.push_args chain_name
  | AnyAction.Deletion d => d.push_args chain_name

/-- `AnyAction::is_creation`. -/
def AnyAction.is_creation (a : AnyAction) : Bool :=
  match a with
  | AnyAction.Check => false
  | AnyAction.Creation _ => true
  | AnyAction.Deletion _ => false

/-! ## Outcome interpretation (`impl From<&ExecutorResult> for ResultInterpretation`) -/

inductive ResultInterpretation where
  /-- Undoubtable success. -/
  | Ok : ResultInterpretation
  /-- Error that happens when a rule that should be deleted doesn't exist. -/
  | OkForDeletions : ResultInterpretation
  /-- A chain couldn't be deleted because it is in use. -/
  | ChainInUse : ResultInterpretation
  /-- A chain couldn't be created because it already exists. -/
  | ChainAlreadyExists : ResultInterpretation
  /-- Unrecoverable error. -/
  | Err : ResultInterpretation
deriving DecidableEq, Repr

/-- The magic output substring disambiguating exit code 4. -/
def chainDelBusyMsg : String := "CHAIN_DEL failed (Device or resource busy)"

/-- The magic output substring disambiguating exit code 1 on `-N`. -/
def chainExistsMsg : String := "Chain already exists"

/-- `impl From<&ExecutorResult> for ResultInterpretation`, clause for
clause. -/
def ExecutorResult.interpretation (result : ExecutorResult) : ResultInterpretation :=
  match result.status with
  | ExecutorStatus.Success => ResultInterpretation.Ok
  | ExecutorStatus.ExitCode code =>
      if code == 4 && strContainsSub result.combined_output chainDelBusyMsg then
        ResultInterpretation.ChainInUse
      else if code == 1 && strContainsSub result.combined_output chainExistsMsg then
        ResultInterpretation.ChainAlreadyExists
      else if code == 1 || code == 2 then
        ResultInterpretation.OkForDeletions
      else
        ResultInterpretation.Err
  | ExecutorStatus.Signal _ => ResultInterpretation.Err
  | ExecutorStatus.ExecFailure _ => ResultInterpretation.Err

/-- The outcome classification as the specification words it (claim
C1): success → Ok; exit 4 with the busy substring → ChainInUse; exit 1
with "Chain already exists" → ChainAlreadyExists; any other result
with exit code 1 or 2 → OkForDeletion; every other exit code, death by
signal, or failure to start → Err. -/
def specOutcome (result : ExecutorResult) : ResultInterpretation :=
  match result.status with
  | ExecutorStatus.Success => ResultInterpretation.Ok
  | ExecutorStatus.ExitCode code =>
      if code = 4 ∧ strContainsSub result.combined_output chainDelBusyMsg = true then
        ResultInterpretation.ChainInUse
      else if code = 1 ∧ strContainsSub result.combined_output chainExistsMsg = true then
        ResultInterpretation.ChainAlreadyExists
      else if code = 1 ∨ code = 2 then
        ResultInterpretation.OkForDeletions
      else
        ResultInterpretation.Err
  | ExecutorStatus.Signal _ => ResultInterpretation.Err
  | ExecutorStatus.ExecFailure _ => ResultInterpretation.Err

/-! ## Rule model (`src/iptables.rs`) -/

/-- Negation flag on a restriction. -/
inductive Negatable where
  | Is : Negatable
  | IsNot : Negatable
deriving DecidableEq, Repr

/-- `Negatable::push_args`: `IsNot` pushes a literal `!`. -/
def Negatable.push_args (n : Negatable) : List String :=
  match n with
  | Negatable.Is => []
  | Negatable.IsNot => ["!"]

/-- The closed protocol vocabulary. -/
inductive Protocol where
  | All | Tcp | Udp | Udplite | Icmp | Icmpv6 | Esp | Ah | Sctp | Mh
deriving DecidableEq, Repr

/-- `From<&Protocol> for String` (via `lc_string_enum`): the variant
name, lower-cased. -/
def Protocol.to_lc_string (p : Protocol) : String :=
  match p with
  | Protocol.All => "all"
  | Protocol.Tcp => "tcp"
  | Protocol.Udp => "udp"
  | Protocol.Udplite => "udplite"
  | Protocol.Icmp => "icmp"
  | Protocol.Icmpv6 => "icmpv6"
  | Protocol.Esp => "esp"
  | Protocol.Ah => "ah"
  | Protocol.Sctp => "sctp"
  | Protocol.Mh => "mh"

/-- `ipnet::Ipv4Net`: an IPv4 address (four octets) plus a prefix
length; its `Display` is `a.b.c.d/len`. -/
structure Ipv4Net where
  o1 : Nat
  o2 : Nat
  o3 : Nat
  o4 : Nat
  prefix_len : Nat
deriving DecidableEq, Repr

/-- `Ipv4Net`'s `Display`/`to_string`. -/
def Ipv4Net.display (n : Ipv4Net) : String :=
  toString n.o1 ++ "." ++ toString n.o2 ++ "." ++ toString n.o3 ++ "."
    ++ toString n.o4 ++ "/" ++ toString n.prefix_len

/-- One match condition of a rule. -/
inductive Restriction where
  | Interface (neg : Negatable) (s : String) : Restriction
  | Protocol (neg : Negatable) (p : Firewall.Protocol) : Restriction
  | SourceAddress (neg : Negatable) (net : Ipv4Net) : Restriction
  | DestinationAddress (neg : Negatable) (net : Ipv4Net) : Restriction
  | SourcePort (neg : Negatable) (n : Nat) : Restriction
  | DestinationPort (neg : Negatable) (n : Nat) : Restriction
  | Custom (conditions : List String) : Restriction
deriving DecidableEq, Repr

/-- `Restriction::push_args`: flag first, then the optional `!`, then
the value (ports and the `Insert` index are `u16`/`u32` formatted in
decimal). -/
def Restriction.push_args (r : Restriction) : List String :=
  match r with
  | Restriction.Interface neg s => ["-i"] ++ neg.push_args ++ [s]
  | Restriction.Protocol neg p => ["-p"] ++ neg.push_args ++ [p.to_lc_string]
  | Restriction.SourceAddress neg net => ["-s"] ++ neg.push_args ++ [net.display]
  | Restriction.DestinationAddress neg net => ["-d"] ++ neg.push_args ++ [net.display]
  | Restriction.SourcePort neg n => ["--sport"] ++ neg.push_args ++ [toString n]
  | Restriction.DestinationPort neg n => ["--dport"] ++ neg.push_args ++ [toString n]
  | Restriction.Custom conditions => conditions

/-- The `TablechainTrait` capability: resolve a chain value to its
chain name and to its (table name, chain name) pair. -/
class TablechainTrait (C : Type) where
  chain_name : C → String
  table_and_chain_names : C → String × String

/-- The trait's provided `push_args`: `-t <table>` followed by the
action's argument fragment. -/
def tablechainPushArgs {C : Type} [TablechainTrait C] (c : C) (action : AnyAction) :
    List String :=
  let tc := TablechainTrait.table_and_chain_names c
  ["-t", tc.1] ++ action.push_args tc.2

/-- The rule's terminal disposition. -/
inductive RuleAction (C : Type) where
  | None : RuleAction C
  | Return : RuleAction C
  | Drop : RuleAction C
  | Reject : RuleAction C
  | Jump (c : C) : RuleAction C
  | Goto (c : C) : RuleAction C
deriving DecidableEq, Repr

/-- `RuleAction::push_args`. -/
def RuleAction.push_args {C : Type} [TablechainTrait C] (ra : RuleAction C) : List String :=
  match ra with
  | RuleAction.None => []
  | RuleAction.Return => ["-j", "RETURN"]
  | RuleAction.Drop => ["-j", "DROP"]
  | RuleAction.Reject => ["-j", "REJECT"]
  | RuleAction.Jump c => ["-j", TablechainTrait.chain_name c]
  | RuleAction.Goto c => ["-g", TablechainTrait.chain_name c]

/-- One firewall rule: chain, ordered restrictions, disposition. -/
structure Rule (C : Type) where
  chain : C
  restrictions : List Restriction
  rule_action : RuleAction C

/-- `Rule::cmd_args`: chain-and-action arguments, then each
restriction's arguments in order, then the disposition's arguments. -/
def Rule.cmd_args {C : Type} [TablechainTrait C] (r : Rule C) (action : AnyAction) :
    List String :=
  tablechainPushArgs r.chain action
    ++ r.restrictions.flatMap Restriction.push_args
    ++ r.rule_action.push_args

/-- The `filter` table's chains (the one chain enum the claims
exercise; `def_chain!` gives every chain enum this same shape). -/
inductive Filter where
  | INPUT : Filter
  | FORWARD : Filter
  | OUTPUT : Filter
  | Custom (s : String) : Filter
deriving DecidableEq, Repr

/-- `Filter`'s `chain_name` (from `def_chain!`): the variant name for
built-ins, the carried string for `Custom`. -/
def Filter.chain_name (c : Filter) : String :=
  match c with
  | Filter.INPUT => "INPUT"
  | Filter.FORWARD => "FORWARD"
  | Filter.OUTPUT => "OUTPUT"
  | Filter.Custom s => s

instance : TablechainTrait Filter where
  chain_name := Filter.chain_name
  table_and_chain_names c := ("filter", Filter.chain_name c)

/-! ## Writer / orchestrator (`IptablesWriter`) -/

/-- `RecreatingMode`. -/
inductive RecreatingMode where
  | Owned : RecreatingMode
  | TryCreationNoDeletion : RecreatingMode
deriving DecidableEq, Repr

/-- `Effect`: what end result you want. -/
inductive Effect where
  | Creation : Effect
  | Recreation : Effect
  | Deletion : Effect
deriving DecidableEq, Repr

/-- One pending operation of the writer: the pushed action, the rule
(a `Box<dyn RuleTrait>`, of which only `cmd_args` is ever used — so it
is modelled as that function), and the recreating mode. -/
structure PendingOp where
  action : AnyAction
  rule : AnyAction → List String
  mode : RecreatingMode

/-- `IptablesWriter`: base command plus pending operations in
declaration (push) order. -/
structure IptablesWriter where
  iptables_cmd : List String
  actions : List PendingOp

/-- An executor (`&mut dyn Executor`): state-threading function from
(state, action, argument vector) to (result, new state). -/
abbrev Exec (σ : Type) := σ → AnyAction → List String → ExecutorResult × σ

/-- One executed command of a run: the action it was executed for and
the full argument vector. -/
structure TraceEntry where
  action : AnyAction
  cmd : List String
deriving DecidableEq, Repr

/-- How a run aborts: the `panic!` on a non-creating action reached by
`execute`, or a fatal outcome (an `anyhow` error carrying the failing
command; the classification that made it fatal is carried here too). -/
inductive ExecError where
  | panicNonCreating : ExecError
  | fatal (cmd : List String) (outcome : ResultInterpretation) : ExecError
deriving DecidableEq, Repr

/-- The observable outcome of (part of) a run: the commands executed
in order, the executor's final state, and whether the run aborted. -/
structure ExecOutcome (σ : Type) where
  trace : List TraceEntry
  final : σ
  err : Option ExecError

/-- The per-outcome policy of `IptablesWriter::execute`'s `match`
(`true` = fatal, aborting the run): `Ok` continues; `OkForDeletions`
and `ChainInUse` are fatal exactly on creating actions;
`ChainAlreadyExists` is fatal unless the executed action is
`NewChain`; `Err` is always fatal. -/
def resultPolicy (action : AnyAction) (i : ResultInterpretation) : Bool :=
  match i with
  | ResultInterpretation.Ok => false
  | ResultInterpretation.OkForDeletions => action.is_creation
  | ResultInterpretation.ChainInUse => action.is_creation
  | ResultInterpretation.ChainAlreadyExists =>
      !(action == AnyAction.Creation Action.NewChain)
  | ResultInterpretation.Err => true

/-- The inner `for action in actions` loop of `execute`: run each
command, stop at the first fatal outcome. -/
def runActions {σ : Type} (w : IptablesWriter) (rule : AnyAction → List String)
    (exec : Exec σ) : List AnyAction → σ → ExecOutcome σ
  | [], s => ⟨[], s, none⟩
  | act :: rest, s =>
      let cmd := w.iptables_cmd ++ rule act
      let rs := exec s act cmd
      if resultPolicy act rs.1.interpretation then
        ⟨[⟨act, cmd⟩], rs.2, some (ExecError.fatal cmd rs.1.interpretation)⟩
      else
        let o := runActions w rule exec rest rs.2
        ⟨⟨act, cmd⟩ :: o.trace, o.final, o.err⟩

/-- One iteration of the `for (action, rule, recreating_mode)` loop:
skip `TryCreationNoDeletion` operations on the undo pass; panic on a
non-creating action; otherwise run the original action (creation pass)
or its deletion sequence (undo pass). -/
def runOp {σ : Type} (w : IptablesWriter) (creation : Bool) (exec : Exec σ)
    (op : PendingOp) (s : σ) : ExecOutcome σ :=
  match creation, op.mode with
  | false, RecreatingMode.TryCreationNoDeletion => ⟨[], s, none⟩
  | _, _ =>
      match op.action with
      | AnyAction.Creation a =>
          let acts : List AnyAction :=
            if creation then [AnyAction.Creation a]
            else (a.deletion_sequence.map AnyAction.Deletion)
          runActions w op.rule exec acts s
      | _ => ⟨[], s, some ExecError.panicNonCreating⟩

/-- The outer loop of one `run` pass, over an already-oriented
operation list: abort at the first operation that errors. -/
def runOps {σ : Type} (w : IptablesWriter) (creation : Bool) (exec : Exec σ) :
    List PendingOp → σ → ExecOutcome σ
  | [], s => ⟨[], s, none⟩
  | op :: rest, s =>
      let o := runOp w creation exec op s
      match o.err with
      | some _ => o
      | none =>
          let o2 := runOps w creation exec rest o.final
          ⟨o.trace ++ o2.trace, o2.final, o2.err⟩

/-- The `run` closure of `execute`: forward list for the creation
pass, reversed list for the undo pass. -/
def runPass {σ : Type} (w : IptablesWriter) (creation : Bool) (exec : Exec σ)
    (s : σ) : ExecOutcome σ :=
  runOps w creation exec (if creation then w.actions else w.actions.reverse) s

/-- `IptablesWriter::execute`: dispatch on the wanted `Effect`
(`Recreation` = `run(false)?; run(true)?`). -/
def IptablesWriter.execute {σ : Type} (w : IptablesWriter) (want : Effect)
    (exec : Exec σ) (s : σ) : ExecOutcome σ :=
  match want with
  | Effect.Creation => runPass w true exec s
  | Effect.Recreation =>
      let o := runPass w false exec s
      match o.err with
      | some _ => o
      | none =>
          let o2 := runPass w true exec o.final
          ⟨o.trace ++ o2.trace, o2.final, o2.err⟩
  | Effect.Deletion => runPass w false exec s

/-! ## The planned command sequence

The argument vectors issued by a pass depend only on the pending
operations, never on executor results; results only decide how far the
run gets.  `plannedRun` is that full per-pass sequence. -/

/-- The single trace entry an operation contributes to the creation
pass. -/
def creationEntry (w : IptablesWriter) (op : PendingOp) : TraceEntry :=
  ⟨op.action, w.iptables_cmd ++ op.rule op.action⟩

/-- The trace entries an operation contributes to the undo pass: its
action's deletion sequence, in order. -/
def deletionEntries (w : IptablesWriter) (op : PendingOp) : List TraceEntry :=
  match op.action with
  | AnyAction.Creation a =>
      a.deletion_sequence.map
        (fun d => ⟨AnyAction.Deletion d, w.iptables_cmd ++ op.rule (AnyAction.Deletion d)⟩)
  | _ => []

/-- What one operation contributes to a pass if the run reaches it and
does not abort at it. -/
def plannedOp (w : IptablesWriter) (creation : Bool) (op : PendingOp) : List TraceEntry :=
  match creation, op.mode with
  | false, RecreatingMode.TryCreationNoDeletion => []
  | true, _ => [creationEntry w op]
  | false, RecreatingMode.Owned => deletionEntries w op

/-- The full command sequence of one pass. -/
def plannedRun (w : IptablesWriter) (creation : Bool) : List TraceEntry :=
  (if creation then w.actions else w.actions.reverse).flatMap (plannedOp w creation)

/-- The full command sequence of a dispatched `Effect`. -/
def plannedTrace (w : IptablesWriter) : Effect → List TraceEntry
  | Effect.Creation => plannedRun w true
  | Effect.Recreation => plannedRun w false ++ plannedRun w true
  | Effect.Deletion => plannedRun w false

/-! ## Claim-side definitions and concrete fixtures -/

/-- The restriction flags named by the specification. -/
def restrictionFlags : List String := ["-i", "-p", "-s", "-d", "--sport", "--dport"]

/-- The encoding claim C9 asserts of a generated argument vector: some
`!` is immediately followed by a restriction flag (i.e. the `!`
immediately precedes the flag). -/
def bangPrecedesFlag : List String → Bool
  | x :: y :: rest =>
      (x == "!" && restrictionFlags.contains y) || bangPrecedesFlag (y :: rest)
  | _ => false

/-- A rule with one negated interface restriction (fixture for C9). -/
def ruleC9 : Rule Filter :=
  ⟨Filter.INPUT, [Restriction.Interface Negatable.IsNot "eth0"], RuleAction.None⟩

/-- Fixture rules for a two-operation writer (C2). -/
def ruleC2a : Rule Filter := ⟨Filter.Custom "our-chain", [], RuleAction.None⟩

def ruleC2b : Rule Filter :=
  ⟨Filter.Custom "our-chain", [Restriction.Interface Negatable.Is "eth0"], RuleAction.Reject⟩

/-- Two owned operations in declaration order (C2). -/
def wC2 : IptablesWriter :=
  ⟨["ip6tables"],
   [⟨AnyAction.Creation Action.NewChain, ruleC2a.cmd_args, RecreatingMode.Owned⟩,
    ⟨AnyAction.Creation Action.Append, ruleC2b.cmd_args, RecreatingMode.Owned⟩]⟩

/-- An always-succeeding executor (C2). -/
def execOkC2 : Exec Unit := fun s _ _ => (⟨ExecutorStatus.Success, ""⟩, s)

/-- Fixture rule and one-operation writer (C3). -/
def ruleC3 : Rule Filter := ⟨Filter.Custom "our-chain", [], RuleAction.None⟩

def wC3 : IptablesWriter :=
  ⟨["ip6tables"], [⟨AnyAction.Creation Action.NewChain, ruleC3.cmd_args, RecreatingMode.Owned⟩]⟩

/-- An always-succeeding executor (C3). -/
def execOkC3 : Exec Unit := fun s _ _ => (⟨ExecutorStatus.Success, ""⟩, s)

/-- Fixture rule and writer (C5). -/
def ruleC5 : Rule Filter := ⟨Filter.Custom "our-chain", [], RuleAction.None⟩

def wC5 : IptablesWriter := ⟨["ip6tables"], []⟩

/-- An executor that always reports exit code 1 with the
chain-already-exists message (C5). -/
def execC5 : Exec Unit :=
  fun s _ _ => (⟨ExecutorStatus.ExitCode 1, "iptables: Chain already exists."⟩, s)

/-- Fixture rule and one-operation writer (C6). -/
def ruleC6 : Rule Filter := ⟨Filter.Custom "our-chain", [], RuleAction.None⟩

def wC6 : IptablesWriter :=
  ⟨["ip6tables"], [⟨AnyAction.Creation Action.NewChain, ruleC6.cmd_args, RecreatingMode.Owned⟩]⟩

/-- An executor that fails `-X` (DeleteChain) with the busy message and
succeeds on everything else (C6). -/
def execC6 : Exec Unit := fun s act _ =>
  match act with
  | AnyAction.Deletion DeletionAction.DeleteChain =>
      (⟨ExecutorStatus.ExitCode 4, chainDelBusyMsg⟩, s)
  | _ => (⟨ExecutorStatus.Success, ""⟩, s)

/-- Fixture rule and a single `TryCreationNoDeletion` operation (C7). -/
def ruleC7 : Rule Filter := ⟨Filter.Custom "tc", [], RuleAction.None⟩

def wC7 : IptablesWriter :=
  ⟨["ip6tables"],
   [⟨AnyAction.Creation Action.Append, ruleC7.cmd_args, RecreatingMode.TryCreationNoDeletion⟩]⟩

/-- An executor that always reports exit code 1 with empty output (C7). -/
def execFail1C7 : Exec Unit := fun s _ _ => (⟨ExecutorStatus.ExitCode 1, ""⟩, s)

/-- Fixtures for the amended C7 theorem's witness. -/
def ruleC7w : Rule Filter := ⟨Filter.Custom "tc", [], RuleAction.None⟩

def wC7w : IptablesWriter := ⟨["ip6tables"], []⟩

def execC7w : Exec Unit := fun s _ _ => (⟨ExecutorStatus.ExitCode 1, ""⟩, s)

/-- Fixture rule and one-operation writer (C8). -/
def ruleC8 : Rule Filter := ⟨Filter.Custom "our-chain", [], RuleAction.None⟩

def wC8 : IptablesWriter :=
  ⟨["ip6tables"], [⟨AnyAction.Creation Action.Append, ruleC8.cmd_args, RecreatingMode.Owned⟩]⟩

/-- An executor that always reports exit code 6 (classified `Err`, C8). -/
def execErrC8 : Exec Unit := fun s _ _ => (⟨ExecutorStatus.ExitCode 6, ""⟩, s)

/-- Fixture rule and all-creating writer (C10). -/
def ruleC10 : Rule Filter := ⟨Filter.Custom "our-chain", [], RuleAction.None⟩

def wC10 : IptablesWriter :=
  ⟨["ip6tables"], [⟨AnyAction.Creation Action.NewChain, ruleC10.cmd_args, RecreatingMode.Owned⟩]⟩

/-- An always-succeeding executor (C10). -/
def execOkC10 : Exec Unit := fun s _ _ => (⟨ExecutorStatus.Success, ""⟩, s)

end Firewall

namespace Firewall

/-! ## Helper lemmas about the run model -/

theorem flatMap_congr_of_mem {α β : Type} {l : List α} {f g : α → List β}
    (h : ∀ x ∈ l, f x = g x) : l.flatMap f = l.flatMap g := by
  induction l with
  | nil => rfl
  | cons x xs ih =>
      simp only [List.flatMap_cons]
      rw [h x (by simp), ih (fun y hy => h y (by simp [hy]))]

theorem flatMap_singleton_eq_map {α β : Type} (l : List α) (f : α → β) :
    l.flatMap (fun x => [f x]) = l.map f := by
  induction l with
  | nil => rfl
  | cons x xs ih => simp only [List.flatMap_cons, List.map_cons, List.singleton_append, ih]

theorem runActions_trace_le_planned {σ : Type} (w : IptablesWriter)
    (rule : AnyAction → List String) (exec : Exec σ) (acts : List AnyAction) (s : σ) :
    (runActions w rule exec acts s).trace
      <+: acts.map (fun act => (⟨act, w.iptables_cmd ++ rule act⟩ : TraceEntry)) := by
  induction acts generalizing s with
  | nil => exact List.nil_prefix
  | cons act rest ih =>
      simp only [runActions, List.map_cons]
      cases h : resultPolicy act ((exec s act (w.iptables_cmd ++ rule act)).1.interpretation) with
      | true =>
          simp only [h, if_true]
          exact ⟨_, rfl⟩
      | false =>
          simp only [h, Bool.false_eq_true, if_false]
          obtain ⟨r, hr⟩ := ih (exec s act (w.iptables_cmd ++ rule act)).2
          exact ⟨r, by rw [List.cons_append, hr]⟩

theorem runActions_err_none_trace {σ : Type} (w : IptablesWriter)
    (rule : AnyAction → List String) (exec : Exec σ) (acts : List AnyAction) (s : σ)
    (h : (runActions w rule exec acts s).err = none) :
    (runActions w rule exec acts s).trace
      = acts.map (fun act => (⟨act, w.iptables_cmd ++ rule act⟩ : TraceEntry)) := by
  induction acts generalizing s with
  | nil => rfl
  | cons act rest ih =>
      simp only [runActions, List.map_cons] at h ⊢
      cases hp : resultPolicy act ((exec s act (w.iptables_cmd ++ rule act)).1.interpretation) with
      | true => simp [hp] at h
      | false =>
          simp only [hp, Bool.false_eq_true, if_false] at h ⊢
          rw [ih _ h]

theorem runActions_no_panic {σ : Type} (w : IptablesWriter)
    (rule : AnyAction → List String) (exec : Exec σ) (acts : List AnyAction) (s : σ) :
    (runActions w rule exec acts s).err ≠ some ExecError.panicNonCreating := by
  induction acts generalizing s with
  | nil => simp [runActions]
  | cons act rest ih =>
      simp only [runActions]
      cases hp : resultPolicy act ((exec s act (w.iptables_cmd ++ rule act)).1.interpretation) with
      | true => simp [hp]
      | false =>
          simp only [hp, Bool.false_eq_true, if_false]
          exact ih (exec s act (w.iptables_cmd ++ rule act)).2

theorem runActions_fatal_last {σ : Type} (w : IptablesWriter)
    (rule : AnyAction → List String) (exec : Exec σ) (acts : List AnyAction) (s : σ)
    (c : List String) (i : ResultInterpretation)
    (h : (runActions w rule exec acts s).err = some (ExecError.fatal c i)) :
    ((runActions w rule exec acts s).trace.getLast?).map TraceEntry.cmd = some c := by
  induction acts generalizing s with
  | nil => simp [runActions] at h
  | cons act rest ih =>
      simp only [runActions] at h ⊢
      cases hp : resultPolicy act ((exec s act (w.iptables_cmd ++ rule act)).1.interpretation) with
      | true =>
          simp only [hp, if_true] at h ⊢
          obtain ⟨hc, hi⟩ : w.iptables_cmd ++ rule act = c ∧
              (exec s act (w.iptables_cmd ++ rule act)).1.interpretation = i := by
            have := h
            simp only [Option.some.injEq] at this
            cases this
            exact ⟨rfl, rfl⟩
          simp [List.getLast?, hc]
      | false =>
          simp only [hp, Bool.false_eq_true, if_false] at h ⊢
          have htail := ih (exec s act (w.iptables_cmd ++ rule act)).2 h
          cases ht : (runActions w rule exec rest
              (exec s act (w.iptables_cmd ++ rule act)).2).trace with
          | nil => rw [ht] at htail; simp at htail
          | cons x xs =>
              rw [ht] at htail
              rw [List.getLast?_cons_cons]
              exact htail

theorem runOp_trace_le_planned {σ : Type} (w : IptablesWriter) (creation : Bool)
    (exec : Exec σ) (op : PendingOp) (s : σ) :
    (runOp w creation exec op s).trace <+: plannedOp w creation op := by
  obtain ⟨act, rulef, mode⟩ := op
  cases creation with
  | false =>
      cases mode with
      | TryCreationNoDeletion => exact List.nil_prefix
      | Owned =>
          cases act with
          | Creation a =>
              simp only [runOp, plannedOp, deletionEntries]
              have h := runActions_trace_le_planned w rulef exec
                (a.deletion_sequence.map AnyAction.Deletion) s
              rw [List.map_map] at h
              simpa [Function.comp] using h
          | Check => exact List.nil_prefix
          | Deletion d => exact List.nil_prefix
  | true =>
      cases mode with
      | TryCreationNoDeletion =>
          cases act with
          | Creation a =>
              simp only [runOp, plannedOp, creationEntry]
              simpa using runActions_trace_le_planned w rulef exec [AnyAction.Creation a] s
          | Check => exact List.nil_prefix
          | Deletion d => exact List.nil_prefix
      | Owned =>
          cases act with
          | Creation a =>
              simp only [runOp, plannedOp, creationEntry]
              simpa using runActions_trace_le_planned w rulef exec [AnyAction.Creation a] s
          | Check => exact List.nil_prefix
          | Deletion d => exact List.nil_prefix

theorem runOp_err_none_trace {σ : Type} (w : IptablesWriter) (creation : Bool)
    (exec : Exec σ) (op : PendingOp) (s : σ)
    (h : (runOp w creation exec op s).err = none) :
    (runOp w creation exec op s).trace = plannedOp w creation op := by
  obtain ⟨act, rulef, mode⟩ := op
  cases creation with
  | false =>
      cases mode with
      | TryCreationNoDeletion => rfl
      | Owned =>
          cases act with
          | Creation a =>
              simp only [runOp, plannedOp, deletionEntries, Bool.false_eq_true,
                if_false] at h ⊢
              have he := runActions_err_none_trace w rulef exec
                (a.deletion_sequence.map AnyAction.Deletion) s h
              rw [he, List.map_map]
              simp [Function.comp]
          | Check => simp [runOp] at h
          | Deletion d => simp [runOp] at h
  | true =>
      cases mode with
      | TryCreationNoDeletion =>
          cases act with
          | Creation a =>
              simp only [runOp, plannedOp, creationEntry, if_true] at h ⊢
              have he := runActions_err_none_trace w rulef exec [AnyAction.Creation a] s h
              simpa using he
          | Check => simp [runOp] at h
          | Deletion d => simp [runOp] at h
      | Owned =>
          cases act with
          | Creation a =>
              simp only [runOp, plannedOp, creationEntry, if_true] at h ⊢
              have he := runActions_err_none_trace w rulef exec [AnyAction.Creation a] s h
              simpa using he
          | Check => simp [runOp] at h
          | Deletion d => simp [runOp] at h

theorem runOp_no_panic_of_creating {σ : Type} (w : IptablesWriter) (creation : Bool)
    (exec : Exec σ) (op : PendingOp) (s : σ) (h : op.action.is_creation = true) :
    (runOp w creation exec op s).err ≠ some ExecError.panicNonCreating := by
  obtain ⟨act, rulef, mode⟩ := op
  cases act with
  | Creation a =>
      cases creation <;> cases mode <;>
        first
          | exact runActions_no_panic w rulef exec _ s
          | simp [runOp]
  | Check => simp [AnyAction.is_creation] at h
  | Deletion d => simp [AnyAction.is_creation] at h

theorem runOp_fatal_last {σ : Type} (w : IptablesWriter) (creation : Bool)
    (exec : Exec σ) (op : PendingOp) (s : σ) (c : List String) (i : ResultInterpretation)
    (h : (runOp w creation exec op s).err = some (ExecError.fatal c i)) :
    ((runOp w creation exec op s).trace.getLast?).map TraceEntry.cmd = some c := by
  obtain ⟨act, rulef, mode⟩ := op
  cases act with
  | Creation a =>
      cases creation <;> cases mode <;>
        first
          | exact runActions_fatal_last w rulef exec _ s c i h
          | simp [runOp] at h
  | Check =>
      cases creation <;> cases mode <;> simp [runOp] at h
  | Deletion d =>
      cases creation <;> cases mode <;> simp [runOp] at h

theorem runOps_trace_le_planned {σ : Type} (w : IptablesWriter) (creation : Bool)
    (exec : Exec σ) (ops : List PendingOp) (s : σ) :
    (runOps w creation exec ops s).trace <+: ops.flatMap (plannedOp w creation) := by
  induction ops generalizing s with
  | nil => exact List.nil_prefix
  | cons op rest ih =>
      simp only [runOps, List.flatMap_cons]
      split
      · exact (runOp_trace_le_planned w creation exec op s).trans (List.prefix_append _ _)
      · next heq =>
          rw [runOp_err_none_trace w creation exec op s heq]
          obtain ⟨r, hr⟩ := ih (runOp w creation exec op s).final
          exact ⟨r, by rw [List.append_assoc, hr]⟩

theorem runOps_err_none_trace {σ : Type} (w : IptablesWriter) (creation : Bool)
    (exec : Exec σ) (ops : List PendingOp) (s : σ)
    (h : (runOps w creation exec ops s).err = none) :
    (runOps w creation exec ops s).trace = ops.flatMap (plannedOp w creation) := by
  induction ops generalizing s with
  | nil => rfl
  | cons op rest ih =>
      simp only [runOps, List.flatMap_cons] at h ⊢
      split at h
      · next x heq =>
          rw [heq] at h
          exact absurd h (by simp)
      · next heq =>
          rw [runOp_err_none_trace w creation exec op s heq,
            ih (runOp w creation exec op s).final h]

theorem runOps_no_panic_of_creating {σ : Type} (w : IptablesWriter) (creation : Bool)
    (exec : Exec σ) (ops : List PendingOp) (s : σ)
    (h : ops.all (fun op => op.action.is_creation) = true) :
    (runOps w creation exec ops s).err ≠ some ExecError.panicNonCreating := by
  induction ops generalizing s with
  | nil => simp [runOps]
  | cons op rest ih =>
      simp only [List.all_cons, Bool.and_eq_true] at h
      simp only [runOps]
      split
      · next x heq => exact runOp_no_panic_of_creating w creation exec op s h.1
      · next heq =>
          exact ih (runOp w creation exec op s).final h.2

theorem runOps_fatal_last {σ : Type} (w : IptablesWriter) (creation : Bool)
    (exec : Exec σ) (ops : List PendingOp) (s : σ) (c : List String)
    (i : ResultInterpretation)
    (h : (runOps w creation exec ops s).err = some (ExecError.fatal c i)) :
    ((runOps w creation exec ops s).trace.getLast?).map TraceEntry.cmd = some c := by
  induction ops generalizing s with
  | nil => simp [runOps] at h
  | cons op rest ih =>
      simp only [runOps] at h ⊢
      split at h
      · next x heq =>
          exact runOp_fatal_last w creation exec op s c i h
      · next heq =>
          have htail := ih (runOp w creation exec op s).final h
          cases hg : (runOps w creation exec rest
              (runOp w creation exec op s).final).trace.getLast? with
          | none => rw [hg] at htail; simp at htail
          | some e =>
              rw [hg] at htail
              rw [List.getLast?_append, hg]
              simpa using htail

theorem execute_trace_le_planned {σ : Type} (w : IptablesWriter) (want : Effect)
    (exec : Exec σ) (s : σ) :
    (w.execute want exec s).trace <+: plannedTrace w want := by
  cases want with
  | Creation =>
      simpa [IptablesWriter.execute, runPass, plannedTrace, plannedRun] using
        runOps_trace_le_planned w true exec w.actions s
  | Deletion =>
      simpa [IptablesWriter.execute, runPass, plannedTrace, plannedRun] using
        runOps_trace_le_planned w false exec w.actions.reverse s
  | Recreation =>
      simp only [IptablesWriter.execute, runPass, plannedTrace, plannedRun]
      simp only [if_true, Bool.false_eq_true, if_false]
      split
      · next x heq =>
          exact (runOps_trace_le_planned w false exec w.actions.reverse s).trans
            (List.prefix_append _ _)
      · next heq =>
          rw [runOps_err_none_trace w false exec w.actions.reverse s heq]
          obtain ⟨r, hr⟩ := runOps_trace_le_planned w true exec w.actions
            (runOps w false exec w.actions.reverse s).final
          exact ⟨r, by rw [List.append_assoc, hr]⟩

theorem execute_err_none_trace {σ : Type} (w : IptablesWriter) (want : Effect)
    (exec : Exec σ) (s : σ) (h : (w.execute want exec s).err = none) :
    (w.execute want exec s).trace = plannedTrace w want := by
  cases want with
  | Creation =>
      simp only [IptablesWriter.execute, runPass, plannedTrace, plannedRun, if_true] at h ⊢
      exact runOps_err_none_trace w true exec w.actions s h
  | Deletion =>
      simp only [IptablesWriter.execute, runPass, plannedTrace, plannedRun,
        Bool.false_eq_true, if_false] at h ⊢
      exact runOps_err_none_trace w false exec w.actions.reverse s h
  | Recreation =>
      simp only [IptablesWriter.execute, runPass, plannedTrace, plannedRun,
        if_true, Bool.false_eq_true, if_false] at h ⊢
      split at h
      · next x heq => rw [heq] at h; exact absurd h (by simp)
      · next heq =>
          rw [runOps_err_none_trace w false exec w.actions.reverse s heq,
            runOps_err_none_trace w true exec w.actions _ h]

theorem execute_fatal_last_cmd {σ : Type} (w : IptablesWriter) (want : Effect)
    (exec : Exec σ) (s : σ) (c : List String) (i : ResultInterpretation)
    (h : (w.execute want exec s).err = some (ExecError.fatal c i)) :
    ((w.execute want exec s).trace.getLast?).map TraceEntry.cmd = some c := by
  cases want with
  | Creation =>
      simp only [IptablesWriter.execute, runPass, Bool.false_eq_true, reduceIte] at h ⊢
      exact runOps_fatal_last w true exec w.actions s c i h
  | Deletion =>
      simp only [IptablesWriter.execute, runPass, Bool.false_eq_true, reduceIte] at h ⊢
      exact runOps_fatal_last w false exec w.actions.reverse s c i h
  | Recreation =>
      simp only [IptablesWriter.execute, runPass, Bool.false_eq_true, reduceIte] at h ⊢
      split at h
      · next x heq =>
          exact runOps_fatal_last w false exec w.actions.reverse s c i h
      · next heq =>
          have htail := runOps_fatal_last w true exec w.actions
            (runOps w false exec w.actions.reverse s).final c i h
          cases hg : (runOps w true exec w.actions
              (runOps w false exec w.actions.reverse s).final).trace.getLast? with
          | none => rw [hg] at htail; simp at htail
          | some e =>
              rw [hg] at htail
              rw [List.getLast?_append, hg]
              simpa using htail

theorem execute_no_panic_of_creating {σ : Type} (w : IptablesWriter) (want : Effect)
    (exec : Exec σ) (s : σ)
    (h : w.actions.all (fun op => op.action.is_creation) = true) :
    (w.execute want exec s).err ≠ some ExecError.panicNonCreating := by
  have hrev : w.actions.reverse.all (fun op => op.action.is_creation) = true := by
    simpa [List.all_reverse] using h
  cases want with
  | Creation =>
      simp only [IptablesWriter.execute, runPass, Bool.false_eq_true, reduceIte]
      exact runOps_no_panic_of_creating w true exec w.actions s h
  | Deletion =>
      simp only [IptablesWriter.execute, runPass, Bool.false_eq_true, reduceIte]
      exact runOps_no_panic_of_creating w false exec w.actions.reverse s hrev
  | Recreation =>
      simp only [IptablesWriter.execute, runPass, Bool.false_eq_true, reduceIte]
      split
      · next x heq => exact runOps_no_panic_of_creating w false exec w.actions.reverse s hrev
      · next heq =>
          exact runOps_no_panic_of_creating w true exec w.actions _ h

/-- C1: Outcome classification is a total function of the executor
result, and coincides case for case with the classification stated in
the specification: Success → Ok; exit 4 with the busy substring →
ChainInUse; exit 1 with "Chain already exists" → ChainAlreadyExists;
any other exit 1 or 2 → OkForDeletions; everything else (other exit
codes, signals, spawn failures) → Err. -/
theorem interpretation_eq_specOutcome (result : ExecutorResult) :
    result.interpretation = specOutcome result := by
  obtain ⟨st, out⟩ := result
  cases st with
  | Success => rfl
  | ExitCode code =>
      simp only [ExecutorResult.interpretation, specOutcome]
      by_cases h4 : code = 4 <;> by_cases h1 : code = 1 <;> by_cases h2 : code = 2 <;>
        by_cases hb : strContainsSub out chainDelBusyMsg = true <;>
        by_cases he : strContainsSub out chainExistsMsg = true <;>
        simp [h4, h1, h2, hb, he]
  | Signal sig => rfl
  | ExecFailure msg => rfl

/-- C4: the deletion sequence of every creating primitive action is
fixed: Append ↦ [Delete], Insert n ↦ [Delete] for every n, NewChain ↦
[Flush, DeleteChain]; and for every creating action the sequence is
non-empty and consists only of non-creating actions. -/
theorem deletion_sequence_spec :
    Action.deletion_sequence Action.Append = [DeletionAction.Delete]
    ∧ (∀ n : Nat, Action.deletion_sequence (Action.Insert n) = [DeletionAction.Delete])
    ∧ Action.deletion_sequence Action.NewChain
        = [DeletionAction.Flush, DeletionAction.DeleteChain]
    ∧ (∀ a : Action, (Action.deletion_sequence a).isEmpty = false)
    ∧ (∀ a : Action,
        (Action.deletion_sequence a).all
          (fun d => !(AnyAction.Deletion d).is_creation) = true) := by
  refine ⟨rfl, fun n => rfl, rfl, fun a => ?_, fun a => ?_⟩
  · cases a <;> rfl
  · cases a <;> rfl

end Firewall

namespace Firewall

/-! ## Further helper lemmas for the claim theorems -/

theorem plannedOp_true (w : IptablesWriter) (op : PendingOp) :
    plannedOp w true op = [creationEntry w op] := by
  obtain ⟨act, rulef, mode⟩ := op
  cases mode <;> rfl

theorem plannedOp_false_owned (w : IptablesWriter) (op : PendingOp)
    (h : op.mode = RecreatingMode.Owned) :
    plannedOp w false op = deletionEntries w op := by
  obtain ⟨act, rulef, mode⟩ := op
  cases mode with
  | Owned => rfl
  | TryCreationNoDeletion => simp at h

theorem runActions_err_none_of_policy {σ : Type} (w : IptablesWriter)
    (rulef : AnyAction → List String) (exec : Exec σ) (acts : List AnyAction) (s : σ)
    (h : ∀ (s' : σ) (act : AnyAction) (cmdv : List String), act ∈ acts →
      resultPolicy act ((exec s' act cmdv).1.interpretation) = false) :
    (runActions w rulef exec acts s).err = none := by
  induction acts generalizing s with
  | nil => rfl
  | cons act rest ih =>
      simp only [runActions]
      rw [h s act (w.iptables_cmd ++ rulef act) (by simp)]
      simp only [Bool.false_eq_true, if_false]
      exact ih _ (fun s' a cmdv hm => h s' a cmdv (by simp [hm]))

theorem runOp_err_none_of_policy {σ : Type} (w : IptablesWriter) (creation : Bool)
    (exec : Exec σ) (op : PendingOp) (s : σ)
    (hpc : ∀ (s' : σ) (a : Action) (cmdv : List String),
      resultPolicy (AnyAction.Creation a) ((exec s' (AnyAction.Creation a) cmdv).1.interpretation) = false)
    (hpd : ∀ (s' : σ) (d : DeletionAction) (cmdv : List String),
      resultPolicy (AnyAction.Deletion d) ((exec s' (AnyAction.Deletion d) cmdv).1.interpretation) = false)
    (hcrea : op.action.is_creation = true) :
    (runOp w creation exec op s).err = none := by
  obtain ⟨act, rulef, mode⟩ := op
  cases act with
  | Check => simp [AnyAction.is_creation] at hcrea
  | Deletion d => simp [AnyAction.is_creation] at hcrea
  | Creation a =>
      have hgen : ∀ (acts : List AnyAction) ,
          (∀ act ∈ acts, (∃ a2, act = AnyAction.Creation a2) ∨ ∃ d, act = AnyAction.Deletion d) →
          (runActions w rulef exec acts s).err = none := by
        intro acts hacts
        refine runActions_err_none_of_policy w rulef exec acts s ?_
        intro s' a2 cmdv hm
        rcases hacts a2 hm with ⟨x, rfl⟩ | ⟨x, rfl⟩
        · exact hpc s' x cmdv
        · exact hpd s' x cmdv
      cases creation with
      | true =>
          cases mode <;>
            exact hgen [AnyAction.Creation a] (by intro act hm; simp at hm; exact Or.inl ⟨a, hm⟩)
      | false =>
          cases mode with
          | TryCreationNoDeletion => rfl
          | Owned =>
              exact hgen (a.deletion_sequence.map AnyAction.Deletion)
                (by
                  intro act hm
                  obtain ⟨d, _, rfl⟩ := List.mem_map.mp hm
                  exact Or.inr ⟨d, rfl⟩)

theorem runOps_err_none_of_policy {σ : Type} (w : IptablesWriter) (creation : Bool)
    (exec : Exec σ) (ops : List PendingOp) (s : σ)
    (hpc : ∀ (s' : σ) (a : Action) (cmdv : List String),
      resultPolicy (AnyAction.Creation a) ((exec s' (AnyAction.Creation a) cmdv).1.interpretation) = false)
    (hpd : ∀ (s' : σ) (d : DeletionAction) (cmdv : List String),
      resultPolicy (AnyAction.Deletion d) ((exec s' (AnyAction.Deletion d) cmdv).1.interpretation) = false)
    (hcrea : ops.all (fun op => op.action.is_creation) = true) :
    (runOps w creation exec ops s).err = none := by
  induction ops generalizing s with
  | nil => rfl
  | cons op rest ih =>
      simp only [List.all_cons, Bool.and_eq_true] at hcrea
      have hop := runOp_err_none_of_policy w creation exec op s hpc hpd hcrea.1
      simp only [runOps]
      split
      · next x heq => exact hop
      · next heq => exact ih _ hcrea.2

end Firewall

namespace Firewall

/-! ## Claim theorems -/

/-- C2: for a list of pending operations all with mode `Owned`, a
completed `Creation` run executes exactly one command per operation in
declaration (push) order, and a completed `Deletion` run executes each
operation's deletion sequence in exactly reverse declaration order;
the list itself is never reordered, only iterated forward or
reversed. -/
theorem execute_order_of_owned {σ : Type} (w : IptablesWriter) (exec : Exec σ)
    (s1 s2 : σ)
    (hown : w.actions.all (fun op => op.mode == RecreatingMode.Owned) = true) :
    ((w.execute Effect.Creation exec s1).err = none →
      (w.execute Effect.Creation exec s1).trace = w.actions.map (creationEntry w))
    ∧ ((w.execute Effect.Deletion exec s2).err = none →
      (w.execute Effect.Deletion exec s2).trace
        = w.actions.reverse.flatMap (deletionEntries w)) := by
  have hmode : ∀ op ∈ w.actions, op.mode = RecreatingMode.Owned := by
    intro op hop
    have := List.all_eq_true.mp hown op hop
    simpa using this
  constructor
  · intro h
    rw [execute_err_none_trace w Effect.Creation exec s1 h]
    show plannedRun w true = _
    unfold plannedRun
    rw [if_pos rfl]
    rw [flatMap_congr_of_mem (g := fun op => [creationEntry w op])
      (fun op _ => plannedOp_true w op)]
    exact flatMap_singleton_eq_map w.actions (creationEntry w)
  · intro h
    rw [execute_err_none_trace w Effect.Deletion exec s2 h]
    show plannedRun w false = _
    unfold plannedRun
    rw [if_neg (by simp)]
    exact flatMap_congr_of_mem
      (fun op hop => plannedOp_false_owned w op (hmode op (List.mem_reverse.mp hop)))

/-- C2 witness: on a concrete two-operation owned writer with an
always-succeeding executor, both runs complete and the traces are the
forward map and the reversed deletion sequences. -/
theorem execute_order_of_owned_witness :
    (wC2.execute Effect.Creation execOkC2 ()).trace = wC2.actions.map (creationEntry wC2)
    ∧ (wC2.execute Effect.Deletion execOkC2 ()).trace
        = wC2.actions.reverse.flatMap (deletionEntries wC2) :=
  ⟨(execute_order_of_owned wC2 execOkC2 () () (by decide)).1 (by decide),
   (execute_order_of_owned wC2 execOkC2 () () (by decide)).2 (by decide)⟩

/-- C3: a `Recreation` run is exactly the `Deletion` run followed (on
the deletion run's final executor state) by the `Creation` run: if the
deletion pass completes, the recreation trace is the deletion trace
concatenated with the creation trace, and the error and final state
are the creation run's; if the deletion pass aborts, the recreation
run is identical to the deletion run.  No reordering or interleaving
occurs between the passes. -/
theorem execute_recreation_composes {σ : Type} (w : IptablesWriter) (exec : Exec σ)
    (s : σ) :
    ((w.execute Effect.Deletion exec s).err = none →
      (w.execute Effect.Recreation exec s).trace
        = (w.execute Effect.Deletion exec s).trace
          ++ (w.execute Effect.Creation exec (w.execute Effect.Deletion exec s).final).trace
      ∧ (w.execute Effect.Recreation exec s).err
        = (w.execute Effect.Creation exec (w.execute Effect.Deletion exec s).final).err
      ∧ (w.execute Effect.Recreation exec s).final
        = (w.execute Effect.Creation exec (w.execute Effect.Deletion exec s).final).final)
    ∧ (∀ e, (w.execute Effect.Deletion exec s).err = some e →
        w.execute Effect.Recreation exec s = w.execute Effect.Deletion exec s) := by
  constructor
  · intro h
    simp only [IptablesWriter.execute, runPass, Bool.false_eq_true, reduceIte] at h ⊢
    split
    · next x heq => rw [heq] at h; exact absurd h (by simp)
    · next heq => exact ⟨rfl, rfl, rfl⟩
  · intro e he
    simp only [IptablesWriter.execute, runPass, Bool.false_eq_true, reduceIte] at he ⊢
    split
    · next x heq => rfl
    · next heq => rw [heq] at he; exact absurd he (by simp)

/-- C3 witness: on a concrete one-operation writer with an
always-succeeding executor, the recreation trace is the deletion trace
followed by the creation trace. -/
theorem execute_recreation_composes_witness :
    (wC3.execute Effect.Recreation execOkC3 ()).trace
      = (wC3.execute Effect.Deletion execOkC3 ()).trace
        ++ (wC3.execute Effect.Creation execOkC3
            (wC3.execute Effect.Deletion execOkC3 ()).final).trace :=
  ((execute_recreation_composes wC3 execOkC3 ()).1 (by decide)).1

/-- C5: on the creation pass, when the executed command's result is
classified `ChainAlreadyExists`, the step is tolerated (the operation
finishes without error) if and only if the executed step is
`NewChain`; for any other creating step the outcome is fatal, carrying
the offending command. -/
theorem chain_already_exists_tolerated_iff_new_chain {σ : Type} (w : IptablesWriter)
    (exec : Exec σ) (s : σ) (rulef : AnyAction → List String) (mode : RecreatingMode)
    (a : Action)
    (h : ((exec s (AnyAction.Creation a)
        (w.iptables_cmd ++ rulef (AnyAction.Creation a))).1).interpretation
        = ResultInterpretation.ChainAlreadyExists) :
    ((runOp w true exec ⟨AnyAction.Creation a, rulef, mode⟩ s).err = none
      ↔ a = Action.NewChain)
    ∧ (resultPolicy (AnyAction.Creation a) ResultInterpretation.ChainAlreadyExists = false
      ↔ a = Action.NewChain)
    ∧ (a ≠ Action.NewChain →
      (runOp w true exec ⟨AnyAction.Creation a, rulef, mode⟩ s).err
        = some (ExecError.fatal (w.iptables_cmd ++ rulef (AnyAction.Creation a))
            ResultInterpretation.ChainAlreadyExists)) := by
  cases mode <;> cases a <;>
    simp [runOp, runActions, resultPolicy, h, AnyAction.is_creation]

/-- C5 witness: a `NewChain` step whose command reports exit code 1
with "Chain already exists" is tolerated. -/
theorem chain_already_exists_tolerated_iff_new_chain_witness :
    (runOp wC5 true execC5
      ⟨AnyAction.Creation Action.NewChain, ruleC5.cmd_args, RecreatingMode.Owned⟩ ()).err
      = none :=
  ((chain_already_exists_tolerated_iff_new_chain wC5 execC5 () ruleC5.cmd_args
      RecreatingMode.Owned Action.NewChain (by decide)).1).mpr rfl

/-- C6: `ChainInUse` is tolerated on the (non-creating) steps of the
undo pass and fatal on creating steps; consequently a `Recreation` run
whose deletion-pass commands all classify `ChainInUse` or `Ok` and
whose creation-pass commands all classify `Ok` completes without error
and executes the full, unchanged command sequence of both passes. -/
theorem chain_in_use_tolerated_on_undo {σ : Type} (w : IptablesWriter) (exec : Exec σ)
    (s : σ)
    (hd : ∀ (s' : σ) (d : DeletionAction) (cmdv : List String),
      ((exec s' (AnyAction.Deletion d) cmdv).1).interpretation
          = ResultInterpretation.ChainInUse
      ∨ ((exec s' (AnyAction.Deletion d) cmdv).1).interpretation = ResultInterpretation.Ok)
    (hc : ∀ (s' : σ) (a : Action) (cmdv : List String),
      ((exec s' (AnyAction.Creation a) cmdv).1).interpretation = ResultInterpretation.Ok)
    (hcrea : w.actions.all (fun op => op.action.is_creation) = true) :
    (∀ d : DeletionAction,
      resultPolicy (AnyAction.Deletion d) ResultInterpretation.ChainInUse = false)
    ∧ (∀ a : Action,
      resultPolicy (AnyAction.Creation a) ResultInterpretation.ChainInUse = true)
    ∧ (w.execute Effect.Recreation exec s).err = none
    ∧ (w.execute Effect.Recreation exec s).trace
        = plannedRun w false ++ plannedRun w true := by
  have hpc : ∀ (s' : σ) (a : Action) (cmdv : List String),
      resultPolicy (AnyAction.Creation a)
        ((exec s' (AnyAction.Creation a) cmdv).1.interpretation) = false := by
    intro s' a cmdv
    rw [hc s' a cmdv]
    rfl
  have hpd : ∀ (s' : σ) (d : DeletionAction) (cmdv : List String),
      resultPolicy (AnyAction.Deletion d)
        ((exec s' (AnyAction.Deletion d) cmdv).1.interpretation) = false := by
    intro s' d cmdv
    rcases hd s' d cmdv with hh | hh <;> rw [hh] <;> rfl
  have hrev : w.actions.reverse.all (fun op => op.action.is_creation) = true := by
    simpa [List.all_reverse] using hcrea
  have h1 : (runOps w false exec w.actions.reverse s).err = none :=
    runOps_err_none_of_policy w false exec w.actions.reverse s hpc hpd hrev
  have hfull : (w.execute Effect.Recreation exec s).err = none := by
    simp only [IptablesWriter.execute, runPass, Bool.false_eq_true, reduceIte]
    split
    · next x heq => exact h1
    · next heq => exact runOps_err_none_of_policy w true exec w.actions _ hpc hpd hcrea
  refine ⟨fun d => rfl, fun a => rfl, hfull, ?_⟩
  have ht := execute_err_none_trace w Effect.Recreation exec s hfull
  simpa [plannedTrace] using ht

/-- C6 witness: a recreation run over one owned `NewChain` operation
whose `-X` fails busy (classified `ChainInUse`) still completes, with
the full two-pass trace. -/
theorem chain_in_use_tolerated_on_undo_witness :
    (wC6.execute Effect.Recreation execC6 ()).err = none
    ∧ (wC6.execute Effect.Recreation execC6 ()).trace
        = plannedRun wC6 false ++ plannedRun wC6 true := by
  have h := chain_in_use_tolerated_on_undo wC6 execC6 ()
    (by
      intro s' d cmdv
      cases d with
      | Delete => exact Or.inr rfl
      | DeleteChain => exact Or.inl rfl
      | Flush => exact Or.inr rfl)
    (by intro s' a cmdv; rfl)
    (by decide)
  exact ⟨h.2.2.1, h.2.2.2⟩

/-- C7 counterexample: a pending operation with mode
`TryCreationNoDeletion` whose creation command exits 1 (classified
`OkForDeletions`) is NOT tolerated: the creation run aborts with a
fatal error, contrary to the claim that only `Owned` operations make
such an outcome fatal. -/
theorem try_creation_no_deletion_failure_fatal :
    (⟨ExecutorStatus.ExitCode 1, ""⟩ : ExecutorResult).interpretation
      = ResultInterpretation.OkForDeletions
    ∧ wC7.actions.all (fun op => op.mode == RecreatingMode.TryCreationNoDeletion) = true
    ∧ (wC7.execute Effect.Creation execFail1C7 ()).err
        = some (ExecError.fatal
            (wC7.iptables_cmd ++ ruleC7.cmd_args (AnyAction.Creation Action.Append))
            ResultInterpretation.OkForDeletions) := by
  refine ⟨by decide, by decide, by decide⟩

/-- C7 amended: on the creation pass an `OkForDeletions` outcome on a
creating step is fatal regardless of the operation's
`RecreatingMode`; `TryCreationNoDeletion` only exempts the operation
from the undo pass. -/
theorem ok_for_deletions_fatal_on_creating_step {σ : Type} (w : IptablesWriter)
    (exec : Exec σ) (s : σ) (rulef : AnyAction → List String) (mode : RecreatingMode)
    (a : Action)
    (h : ((exec s (AnyAction.Creation a)
        (w.iptables_cmd ++ rulef (AnyAction.Creation a))).1).interpretation
        = ResultInterpretation.OkForDeletions) :
    resultPolicy (AnyAction.Creation a) ResultInterpretation.OkForDeletions = true
    ∧ (runOp w true exec ⟨AnyAction.Creation a, rulef, mode⟩ s).err
        = some (ExecError.fatal (w.iptables_cmd ++ rulef (AnyAction.Creation a))
            ResultInterpretation.OkForDeletions)
    ∧ (∀ op : PendingOp, op.mode = RecreatingMode.TryCreationNoDeletion →
        runOp w false exec op s = ⟨[], s, none⟩) := by
  refine ⟨rfl, ?_, ?_⟩
  · cases mode <;> simp [runOp, runActions, resultPolicy, h, AnyAction.is_creation]
  · intro op hmode
    obtain ⟨act, rulef2, mode2⟩ := op
    cases mode2 with
    | Owned => simp at hmode
    | TryCreationNoDeletion => rfl

/-- C7 amended witness: the fatal error on a `TryCreationNoDeletion`
creation step, at concrete inputs. -/
theorem ok_for_deletions_fatal_on_creating_step_witness :
    (runOp wC7w true execC7w
      ⟨AnyAction.Creation Action.Append, ruleC7w.cmd_args,
        RecreatingMode.TryCreationNoDeletion⟩ ()).err
      = some (ExecError.fatal
          (wC7w.iptables_cmd ++ ruleC7w.cmd_args (AnyAction.Creation Action.Append))
          ResultInterpretation.OkForDeletions) :=
  (ok_for_deletions_fatal_on_creating_step wC7w execC7w () ruleC7w.cmd_args
    RecreatingMode.TryCreationNoDeletion Action.Append (by decide)).2.1

/-- C8: a fatal outcome aborts execution immediately: when `execute`
returns a fatal error, the commands actually executed form a prefix of
the planned command sequence of the dispatched Effect, ending exactly
at the offending command — nothing later in that pass, nothing of any
later pass, and no compensating commands. -/
theorem execute_fatal_aborts {σ : Type} (w : IptablesWriter) (want : Effect)
    (exec : Exec σ) (s : σ) (c : List String) (i : ResultInterpretation)
    (h : (w.execute want exec s).err = some (ExecError.fatal c i)) :
    (w.execute want exec s).trace <+: plannedTrace w want
    ∧ ((w.execute want exec s).trace.getLast?).map TraceEntry.cmd = some c :=
  ⟨execute_trace_le_planned w want exec s, execute_fatal_last_cmd w want exec s c i h⟩

/-- C8 witness: a creation run whose only command exits 6 (classified
`Err`) aborts at that command; its trace is a prefix of the plan and
ends with the offending command. -/
theorem execute_fatal_aborts_witness :
    (wC8.execute Effect.Creation execErrC8 ()).trace <+: plannedTrace wC8 Effect.Creation
    ∧ ((wC8.execute Effect.Creation execErrC8 ()).trace.getLast?).map TraceEntry.cmd
        = some (wC8.iptables_cmd ++ ruleC8.cmd_args (AnyAction.Creation Action.Append)) :=
  execute_fatal_aborts wC8 Effect.Creation execErrC8 ()
    (wC8.iptables_cmd ++ ruleC8.cmd_args (AnyAction.Creation Action.Append))
    ResultInterpretation.Err (by decide)

/-- C9 counterexample: for the concrete rule `-i ! eth0` (negated
interface restriction), the generated vector places `!` immediately
AFTER the flag `-i` (before the value), so no `!` immediately precedes
a restriction flag — refuting the claimed encoding. -/
theorem negation_precedes_flag_refuted :
    ruleC9.cmd_args (AnyAction.Creation Action.Append)
      = ["-t", "filter", "-A", "INPUT", "-i", "!", "eth0"]
    ∧ bangPrecedesFlag (ruleC9.cmd_args (AnyAction.Creation Action.Append)) = false := by
  refine ⟨by decide, by decide⟩

/-- C9 amended: a negated restriction is encoded with `!` immediately
following its restriction flag, between the flag and the value; a
non-negated restriction emits no `!`. -/
theorem restriction_negation_after_flag :
    (∀ (neg : Negatable) (s : String),
      Restriction.push_args (Restriction.Interface neg s)
        = ["-i"] ++ neg.push_args ++ [s])
    ∧ (∀ (neg : Negatable) (p : Protocol),
      Restriction.push_args (Restriction.Protocol neg p)
        = ["-p"] ++ neg.push_args ++ [p.to_lc_string])
    ∧ (∀ (neg : Negatable) (net : Ipv4Net),
      Restriction.push_args (Restriction.SourceAddress neg net)
        = ["-s"] ++ neg.push_args ++ [net.display])
    ∧ (∀ (neg : Negatable) (net : Ipv4Net),
      Restriction.push_args (Restriction.DestinationAddress neg net)
        = ["-d"] ++ neg.push_args ++ [net.display])
    ∧ (∀ (neg : Negatable) (n : Nat),
      Restriction.push_args (Restriction.SourcePort neg n)
        = ["--sport"] ++ neg.push_args ++ [toString n])
    ∧ (∀ (neg : Negatable) (n : Nat),
      Restriction.push_args (Restriction.DestinationPort neg n)
        = ["--dport"] ++ neg.push_args ++ [toString n])
    ∧ Negatable.push_args Negatable.Is = []
    ∧ Negatable.push_args Negatable.IsNot = ["!"] :=
  ⟨fun _ _ => rfl, fun _ _ => rfl, fun _ _ => rfl, fun _ _ => rfl,
   fun _ _ => rfl, fun _ _ => rfl, rfl, rfl⟩

/-- C10: `execute` panics (rather than returning an error value) on
any operation whose action is `Check` or a deletion action, in the
creation pass as well as in the undo pass; and if every pending
operation holds a creating action (as `push` guarantees), no run of
any Effect can reach the panic. -/
theorem non_creating_action_panics {σ : Type} (w : IptablesWriter) (exec : Exec σ)
    (s : σ) (rulef : AnyAction → List String) (mode : RecreatingMode) :
    (∀ d : DeletionAction,
      runOp w true exec ⟨AnyAction.Deletion d, rulef, mode⟩ s
        = ⟨[], s, some ExecError.panicNonCreating⟩)
    ∧ runOp w true exec ⟨AnyAction.Check, rulef, mode⟩ s
        = ⟨[], s, some ExecError.panicNonCreating⟩
    ∧ (∀ d : DeletionAction,
      runOp w false exec ⟨AnyAction.Deletion d, rulef, RecreatingMode.Owned⟩ s
        = ⟨[], s, some ExecError.panicNonCreating⟩)
    ∧ runOp w false exec ⟨AnyAction.Check, rulef, RecreatingMode.Owned⟩ s
        = ⟨[], s, some ExecError.panicNonCreating⟩
    ∧ (∀ w2 : IptablesWriter,
        w2.actions.all (fun op => op.action.is_creation) = true →
        ∀ (want : Effect) (s2 : σ),
          (w2.execute want exec s2).err ≠ some ExecError.panicNonCreating) := by
  refine ⟨fun d => ?_, ?_, fun d => ?_, ?_,
    fun w2 hall want s2 => execute_no_panic_of_creating w2 want exec s2 hall⟩
  · cases mode <;> rfl
  · cases mode <;> rfl
  · rfl
  · rfl

/-- C10 witness: on an all-creating writer no recreation run panics,
and a concrete `Check` operation panics on the creation pass. -/
theorem non_creating_action_panics_witness :
    (wC10.execute Effect.Recreation execOkC10 ()).err ≠ some ExecError.panicNonCreating :=
  (non_creating_action_panics wC10 execOkC10 () ruleC10.cmd_args
    RecreatingMode.Owned).2.2.2.2 wC10 (by decide) Effect.Recreation ()

end Firewall
